import Mathlib

/-!
Verification development for the utf8proc UTF-8 / Unicode-normalization library.

The repository ships the public header (src/utf8proc.h), which fixes the
option-flag bitmask, the error codes, the property-record layout and the
documented contracts of every entry point.  The implementation file and the
generated Unicode property tables are not part of the sources at hand, so the
behaviour of the functions is modelled here from the specification, with the
property database treated as an opaque oracle parameter (as the specification
itself prescribes).  Constants and enum values are taken directly from the
header.
-/

/-! ## Option flags and error codes (from src/utf8proc.h, lines 101-182) -/

/-- Option flag: the given UTF-8 input is NULL terminated (header line 106). -/
def UTF8PROC_NULLTERM : Nat := 1 <<< 0

/-- Option flag: Unicode versioning stability has to be respected. -/
def UTF8PROC_STABLE : Nat := 1 <<< 1

/-- Option flag: compatibility decomposition. -/
def UTF8PROC_COMPAT : Nat := 1 <<< 2

/-- Option flag: return a composed result. -/
def UTF8PROC_COMPOSE : Nat := 1 <<< 3

/-- Option flag: return a decomposed result. -/
def UTF8PROC_DECOMPOSE : Nat := 1 <<< 4

/-- Option flag: strip default ignorable characters. -/
def UTF8PROC_IGNORE : Nat := 1 <<< 5

/-- Option flag: return an error on unassigned codepoints. -/
def UTF8PROC_REJECTNA : Nat := 1 <<< 6

/-- Option flag: convert NLF-sequences to line separator. -/
def UTF8PROC_NLF2LS : Nat := 1 <<< 7

/-- Option flag: convert NLF-sequences to paragraph separator. -/
def UTF8PROC_NLF2PS : Nat := 1 <<< 8

/-- Option flag: the meaning of NLF-sequences is unknown (both bits set). -/
def UTF8PROC_NLF2LF : Nat := UTF8PROC_NLF2LS ||| UTF8PROC_NLF2PS

/-- Option flag: strip or convert control characters. -/
def UTF8PROC_STRIPCC : Nat := 1 <<< 9

/-- Option flag: perform Unicode case folding. -/
def UTF8PROC_CASEFOLD : Nat := 1 <<< 10

/-- Option flag: insert 0xFF bytes before each grapheme cluster. -/
def UTF8PROC_CHARBOUND : Nat := 1 <<< 11

/-- Option flag: lump certain characters together. -/
def UTF8PROC_LUMP : Nat := 1 <<< 12

/-- Option flag: strip all character markings. -/
def UTF8PROC_STRIPMARK : Nat := 1 <<< 13

/-- Error code: memory could not be allocated (header line 173). -/
def UTF8PROC_ERROR_NOMEM : Int := -1

/-- Error code: the given string is too long to be processed. -/
def UTF8PROC_ERROR_OVERFLOW : Int := -2

/-- Error code: the given string is not a legal UTF-8 string. -/
def UTF8PROC_ERROR_INVALIDUTF8 : Int := -3

/-- Error code: REJECTNA was set and an unassigned codepoint was found. -/
def UTF8PROC_ERROR_NOTASSIGNED : Int := -4

/-- Error code: invalid options have been used. -/
def UTF8PROC_ERROR_INVALIDOPTS : Int := -5

/-- Unicode category constants used by the pipeline (header lines 234-265). -/
def UTF8PROC_CATEGORY_CN : Int := 0

/-- Unicode category: mark, nonspacing. -/
def UTF8PROC_CATEGORY_MN : Int := 6

/-- Unicode category: mark, spacing combining. -/
def UTF8PROC_CATEGORY_MC : Int := 7

/-- Unicode category: mark, enclosing. -/
def UTF8PROC_CATEGORY_ME : Int := 8

/-- Boundclass of the start-of-text state (header line 316). -/
def UTF8PROC_BOUNDCLASS_START : Int := 0

/-- Test whether an option bitmask has a given flag set, as the C code's
bitwise test `options & flag` does. -/
def hasOpt (options flag : Nat) : Bool := options &&& flag != 0

/-! ## UTF-8 codec

Modelled from the spec: the implementation of `utf8proc_iterate`,
`utf8proc_encode_char` and `utf8proc_codepoint_valid` is not among the
sources (only their declarations in src/utf8proc.h are), so the functions
below follow the words of spec section 4.1. -/

/-- Modelled from the spec: the 256-entry lead-byte length-class table
`utf8proc_utf8class` (declared at src/utf8proc.h line 335).  Per spec section
4.1, bytes 0xC0, 0xC1 and 0xF5..0xFF are invalid leads (class 0), continuation
bytes 0x80..0xBF also have class 0, and the remaining leads have their UTF-8
sequence length 1, 2, 3 or 4. -/
def utf8proc_utf8class (b : Nat) : Nat :=
  if b ≤ 0x7F then 1
  else if b ≤ 0xC1 then 0
  else if b ≤ 0xDF then 2
  else if b ≤ 0xEF then 3
  else if b ≤ 0xF4 then 4
  else 0

/-- Number of input bytes `utf8proc_iterate` may read: at most `strlen` when
`strlen` is nonnegative, otherwise bounded only by the buffer itself (the
spec's "up to 4 bytes may be read" is subsumed, since no length class
exceeds 4). -/
def iterAvail (str : List Nat) (strlen : Int) : Nat :=
  if strlen < 0 then str.length else min str.length strlen.toNat

/-- Scalar value assembled from a two-byte UTF-8 sequence. -/
def utf8proc_cp2 (b0 b1 : Nat) : Nat := (b0 % 32) * 64 + b1 % 64

/-- Scalar value assembled from a three-byte UTF-8 sequence. -/
def utf8proc_cp3 (b0 b1 b2 : Nat) : Nat := (b0 % 16) * 4096 + (b1 % 64) * 64 + b2 % 64

/-- Scalar value assembled from a four-byte UTF-8 sequence. -/
def utf8proc_cp4 (b0 b1 b2 b3 : Nat) : Nat :=
  (b0 % 8) * 262144 + (b1 % 64) * 4096 + (b2 % 64) * 64 + b3 % 64

/-- Modelled from the spec: `utf8proc_iterate` (src/utf8proc.h lines 348-358;
implementation not among the sources).  Reads a single codepoint from the
byte sequence; returns the pair of the result (number of bytes read, or a
negative error code) and the decoded codepoint (or -1 on failure).  Per spec
section 4.1 the lead byte fixes the length class, continuation bytes must
match 10xxxxxx, and the scalar must not be a surrogate, must not exceed
0x10FFFF and must use the minimal number of bytes. -/
def utf8proc_iterate : List Nat → Int → Int × Int
  | [], _ => (UTF8PROC_ERROR_INVALIDUTF8, -1)
  | b0 :: t, strlen =>
    if iterAvail (b0 :: t) strlen = 0 then (UTF8PROC_ERROR_INVALIDUTF8, -1)
    else if utf8proc_utf8class b0 = 0
        ∨ iterAvail (b0 :: t) strlen < utf8proc_utf8class b0 then
      (UTF8PROC_ERROR_INVALIDUTF8, -1)
    else if utf8proc_utf8class b0 = 1 then ((1 : Int), (b0 : Int))
    else match t with
      | [] => (UTF8PROC_ERROR_INVALIDUTF8, -1)
      | b1 :: t2 =>
        if ¬ (0x80 ≤ b1 ∧ b1 ≤ 0xBF) then (UTF8PROC_ERROR_INVALIDUTF8, -1)
        else if utf8proc_utf8class b0 = 2 then
          ((2 : Int), (utf8proc_cp2 b0 b1 : Nat))
        else match t2 with
          | [] => (UTF8PROC_ERROR_INVALIDUTF8, -1)
          | b2 :: t3 =>
            if ¬ (0x80 ≤ b2 ∧ b2 ≤ 0xBF) then (UTF8PROC_ERROR_INVALIDUTF8, -1)
            else if utf8proc_utf8class b0 = 3 then
              if utf8proc_cp3 b0 b1 b2 < 0x800
                  ∨ (0xD800 ≤ utf8proc_cp3 b0 b1 b2 ∧ utf8proc_cp3 b0 b1 b2 ≤ 0xDFFF) then
                (UTF8PROC_ERROR_INVALIDUTF8, -1)
              else ((3 : Int), (utf8proc_cp3 b0 b1 b2 : Nat))
            else match t3 with
              | [] => (UTF8PROC_ERROR_INVALIDUTF8, -1)
              | b3 :: _ =>
                if ¬ (0x80 ≤ b3 ∧ b3 ≤ 0xBF) then (UTF8PROC_ERROR_INVALIDUTF8, -1)
                else if utf8proc_utf8class b0 = 4 then
                  if utf8proc_cp4 b0 b1 b2 b3 < 0x10000
                      ∨ 0x10FFFF < utf8proc_cp4 b0 b1 b2 b3 then
                    (UTF8PROC_ERROR_INVALIDUTF8, -1)
                  else ((4 : Int), (utf8proc_cp4 b0 b1 b2 b3 : Nat))
                else (UTF8PROC_ERROR_INVALIDUTF8, -1)

/-- Modelled from the spec: `utf8proc_encode_char` (src/utf8proc.h lines
367-377; implementation not among the sources).  Standard UTF-8 encoding to
the returned byte list; values outside [0, 0x10FFFF] produce no bytes; the
grapheme-boundary marker value 0xFFFF is emitted as the single byte 0xFF
(spec section 4.1 and 4.5).  The function does not check validity, so
surrogate values are encoded like any other 3-byte scalar. -/
def utf8proc_encode_char (uc : Int) : List Nat :=
  if uc < 0 then []
  else if uc < 0x80 then [uc.toNat]
  else if uc < 0x800 then [0xC0 + uc.toNat / 64, 0x80 + uc.toNat % 64]
  else if uc = 0xFFFF then [0xFF]
  else if uc < 0x10000 then
    [0xE0 + uc.toNat / 4096, 0x80 + uc.toNat / 64 % 64, 0x80 + uc.toNat % 64]
  else if uc < 0x110000 then
    [0xF0 + uc.toNat / 262144, 0x80 + uc.toNat / 4096 % 64, 0x80 + uc.toNat / 64 % 64,
     0x80 + uc.toNat % 64]
  else []

/-- Modelled from the spec: `utf8proc_codepoint_valid` (src/utf8proc.h lines
360-365; implementation not among the sources).  Per spec section 4.1 it is
true iff the codepoint lies in [0, 0x10FFFF] and outside the surrogate range
[0xD800, 0xDFFF]. -/
def utf8proc_codepoint_valid (uc : Int) : Bool :=
  decide (0 ≤ uc) && decide (uc < 0x110000) &&
    !(decide (0xD800 ≤ uc) && decide (uc < 0xE000))

/-! ## Property record and oracle

The property database (the generated tables) is an external collaborator of
the library; the spec treats it as an opaque read-only oracle.  It is
modelled as a parameter `table` mapping a codepoint to its property record
when the codepoint has assigned properties, and `none` otherwise. -/

/-- Property record of one codepoint, mirroring `utf8proc_property_t`
(src/utf8proc.h lines 190-231).  Sequence references are modelled as
optional codepoint lists, the single-codepoint case mappings use the
no-mapping sentinel -1, and the composition indices use the sentinel -1 for
codepoints that cannot participate. -/
structure utf8proc_property_t where
  category : Int
  combining_class : Int
  bidi_class : Int
  decomp_type : Int
  decomp_mapping : Option (List Int)
  casefold_mapping : Option (List Int)
  uppercase_mapping : Int
  lowercase_mapping : Int
  titlecase_mapping : Int
  comb1st_index : Int
  comb2nd_index : Int
  bidi_mirrored : Bool
  comp_exclusion : Bool
  ignorable : Bool
  control_boundary : Bool
  boundclass : Int
  charwidth : Nat

/-- Record returned for codepoints without assigned properties: category CN
and all other fields zero or absent (spec section 3). -/
def utf8proc_property_default : utf8proc_property_t :=
  { category := 0, combining_class := 0, bidi_class := 0, decomp_type := 0,
    decomp_mapping := none, casefold_mapping := none,
    uppercase_mapping := -1, lowercase_mapping := -1, titlecase_mapping := -1,
    comb1st_index := -1, comb2nd_index := -1,
    bidi_mirrored := false, comp_exclusion := false, ignorable := false,
    control_boundary := false, boundclass := 0, charwidth := 0 }

/-- Modelled from the spec: `utf8proc_get_property` (src/utf8proc.h lines
379-391; implementation and tables not among the sources).  Total function:
codepoints outside [0, 0x10FFFF] and codepoints without assigned properties
yield the default record with category CN = 0. -/
def utf8proc_get_property (table : Int → Option utf8proc_property_t) (uc : Int) :
    utf8proc_property_t :=
  if 0 ≤ uc ∧ uc ≤ 0x10FFFF then (table uc).getD utf8proc_property_default
  else utf8proc_property_default

/-- Modelled from the spec: `utf8proc_category` (src/utf8proc.h lines
491-495) returns the category field of the property record. -/
def utf8proc_category (table : Int → Option utf8proc_property_t) (uc : Int) : Int :=
  (utf8proc_get_property table uc).category

/-- The static array of two-letter category names indexed by the category
enum value, as used by `utf8proc_category_string`. -/
def utf8proc_category_strings : List String :=
  ["Cn", "Lu", "Ll", "Lt", "Lm", "Lo", "Mn", "Mc", "Me", "Nd", "Nl", "No",
   "Pc", "Pd", "Ps", "Pe", "Pi", "Pf", "Po", "Sm", "Sc", "Sk", "So", "Zs",
   "Zl", "Zp", "Cc", "Cf", "Cs", "Co"]

/-- Modelled from the spec: `utf8proc_category_string` (src/utf8proc.h lines
497-501) indexes the static name array with the codepoint's category. -/
def utf8proc_category_string (table : Int → Option utf8proc_property_t) (uc : Int) :
    String :=
  utf8proc_category_strings.getD (utf8proc_category table uc).toNat ""

/-- Two-letter name of each category value of the enum `utf8proc_category_t`
(src/utf8proc.h lines 234-265), written out case by case. -/
def utf8proc_category_name (cat : Int) : String :=
  match cat.toNat with
  | 0 => "Cn" | 1 => "Lu" | 2 => "Ll" | 3 => "Lt" | 4 => "Lm" | 5 => "Lo"
  | 6 => "Mn" | 7 => "Mc" | 8 => "Me" | 9 => "Nd" | 10 => "Nl" | 11 => "No"
  | 12 => "Pc" | 13 => "Pd" | 14 => "Ps" | 15 => "Pe" | 16 => "Pi" | 17 => "Pf"
  | 18 => "Po" | 19 => "Sm" | 20 => "Sc" | 21 => "Sk" | 22 => "So" | 23 => "Zs"
  | 24 => "Zl" | 25 => "Zp" | 26 => "Cc" | 27 => "Cf" | 28 => "Cs" | 29 => "Co"
  | _ => ""

/-! ## Canonical reordering

Modelled from the spec: the reordering pass of `utf8proc_decompose`
(src/utf8proc.h lines 425-443; implementation not among the sources).  Per
spec section 4.4 the codepoint buffer is scanned and every maximal run of
codepoints with nonzero combining class is sorted stably by combining class
(insertion sort); starters (class 0) anchor the runs and are never moved.
The combining-class assignment is the oracle parameter `cc`. -/
def canonicalReorder (cc : Int → Int) : List Int → List Int
  | [] => []
  | x :: t =>
    if cc x = 0 then x :: canonicalReorder cc t
    else
      List.insertionSort (fun a b => cc a ≤ cc b)
          (x :: t.takeWhile (fun y => decide (cc y ≠ 0)))
        ++ canonicalReorder cc (t.dropWhile (fun y => decide (cc y ≠ 0)))
  termination_by l => l.length
  decreasing_by
    · exact Nat.lt_succ_self _
    · exact Nat.lt_succ_of_le ((List.dropWhile_sublist _).length_le)

/-! ## Per-codepoint decomposer

Modelled from the spec: `utf8proc_decompose_char` (src/utf8proc.h lines
393-423; implementation not among the sources) follows the nine-step
pipeline of spec section 4.3.  The lump table and the property database are
oracle parameters.  The recursion through casefold and decomposition
mappings is bounded by an explicit fuel argument; the spec guarantees the
mappings are acyclic with bounded depth, so a large enough fuel never runs
out.  Instead of a destination buffer and its size, the model returns the
emitted codepoint sequence together with the updated grapheme boundary
class. -/

/-- Modelled from the spec: grapheme-break decision between two boundary
classes, per the UAX 29 extended rules as listed in spec sections 4.3 and
6 (CR/LF/Control force breaks apart from CR before LF, Extend and
SpacingMark never break before, Hangul jamo clusters, regional-indicator
pairs).  Boundclass 0 is the start-of-text state, which always breaks. -/
def utf8proc_grapheme_break_bc (lbc tbc : Int) : Bool :=
  if lbc = 0 then true
  else if lbc = 2 ∧ tbc = 3 then false
  else if 2 ≤ lbc ∧ lbc ≤ 4 then true
  else if 2 ≤ tbc ∧ tbc ≤ 4 then true
  else if tbc = 5 then false
  else if lbc = 6 ∧ (tbc = 6 ∨ tbc = 7 ∨ tbc = 9 ∨ tbc = 10) then false
  else if (lbc = 9 ∨ lbc = 7) ∧ (tbc = 7 ∨ tbc = 8) then false
  else if (lbc = 10 ∨ lbc = 8) ∧ tbc = 8 then false
  else if lbc = 11 ∧ tbc = 11 then false
  else if tbc = 12 then false
  else true

/-- Modelled from the spec: `utf8proc_grapheme_break` (src/utf8proc.h lines
475-479) applies the boundary rules to the two codepoints' boundclasses. -/
def utf8proc_grapheme_break (table : Int → Option utf8proc_property_t)
    (c1 c2 : Int) : Bool :=
  utf8proc_grapheme_break_bc (utf8proc_get_property table c1).boundclass
    (utf8proc_get_property table c2).boundclass

/-- Modelled from the spec: `utf8proc_charwidth` (src/utf8proc.h lines
481-489) returns the charwidth property field. -/
def utf8proc_charwidth (table : Int → Option utf8proc_property_t) (uc : Int) : Nat :=
  (utf8proc_get_property table uc).charwidth

/-- Final emission step of the decomposer (spec section 4.3, steps 8 and 9):
under CHARBOUND, insert the marker 0xFFFF before the codepoint when a
grapheme break is permitted between the previous and current boundary
classes, and update the carried boundary class. -/
def utf8proc_decompose_char_emit (table : Int → Option utf8proc_property_t)
    (options : Nat) (uc lastbc : Int) : List Int × Int :=
  if hasOpt options UTF8PROC_CHARBOUND then
    if utf8proc_grapheme_break_bc lastbc (utf8proc_get_property table uc).boundclass then
      ([0xFFFF, uc], (utf8proc_get_property table uc).boundclass)
    else ([uc], (utf8proc_get_property table uc).boundclass)
  else ([uc], lastbc)

/-- Modelled from the spec: `utf8proc_decompose_char` (spec section 4.3).
Steps in order: REJECTNA on unassigned codepoints; IGNORE drops ignorables
and U+00AD; STRIPMARK drops the mark categories Mn/Mc/Me; CASEFOLD recurses
through the casefold mapping; the Hangul syllable block decomposes
algorithmically when decomposition is requested; an applicable decomposition
mapping (canonical, or any when COMPAT is set) is recursed through; LUMP
consults the lump table (with the line and paragraph separators mapping to
LF when NLF2LF is set); finally the codepoint itself is emitted, preceded
under CHARBOUND by the 0xFFFF marker when a grapheme break is permitted. -/
def utf8proc_decompose_char (table : Int → Option utf8proc_property_t)
    (lumpTbl : Int → Option Int) :
    Nat → Int → Nat → Int → Except Int (List Int × Int)
  | 0, _, _, _ => .error UTF8PROC_ERROR_OVERFLOW
  | fuel + 1, uc, options, lastbc =>
    if hasOpt options UTF8PROC_REJECTNA
        ∧ (utf8proc_get_property table uc).category = UTF8PROC_CATEGORY_CN then
      .error UTF8PROC_ERROR_NOTASSIGNED
    else if hasOpt options UTF8PROC_IGNORE
        ∧ ((utf8proc_get_property table uc).ignorable = true ∨ uc = 0xAD) then
      .ok ([], lastbc)
    else if hasOpt options UTF8PROC_STRIPMARK
        ∧ ((utf8proc_get_property table uc).category = UTF8PROC_CATEGORY_MN
           ∨ (utf8proc_get_property table uc).category = UTF8PROC_CATEGORY_MC
           ∨ (utf8proc_get_property table uc).category = UTF8PROC_CATEGORY_ME) then
      .ok ([], lastbc)
    else
      match (if hasOpt options UTF8PROC_CASEFOLD then
              (utf8proc_get_property table uc).casefold_mapping
             else none) with
      | some seq =>
          seq.foldlM
            (fun acc d => do
              let r ← utf8proc_decompose_char table lumpTbl fuel d options acc.2
              pure (acc.1 ++ r.1, r.2))
            (([] : List Int), lastbc)
      | none =>
        if (0xAC00 ≤ uc ∧ uc < 0xD7A4)
            ∧ (hasOpt options UTF8PROC_COMPOSE ∨ hasOpt options UTF8PROC_DECOMPOSE) then
          .ok ((0x1100 + (uc - 0xAC00) / 588)
              :: (0x1161 + ((uc - 0xAC00) % 588) / 28)
              :: (if (uc - 0xAC00) % 28 = 0 then []
                  else [0x11A7 + (uc - 0xAC00) % 28]), lastbc)
        else
          match (if hasOpt options UTF8PROC_COMPAT
                    ∨ (utf8proc_get_property table uc).decomp_type = 0 then
                  (utf8proc_get_property table uc).decomp_mapping
                 else none) with
          | some seq =>
              seq.foldlM
                (fun acc d => do
                  let r ← utf8proc_decompose_char table lumpTbl fuel d options acc.2
                  pure (acc.1 ++ r.1, r.2))
                (([] : List Int), lastbc)
          | none =>
            if hasOpt options UTF8PROC_LUMP then
              match (if hasOpt options UTF8PROC_NLF2LS ∧ hasOpt options UTF8PROC_NLF2PS
                        ∧ (uc = 0x2028 ∨ uc = 0x2029) then some 0x0A
                     else lumpTbl uc) with
              | some r => .ok ([r], lastbc)
              | none => .ok (utf8proc_decompose_char_emit table options uc lastbc)
            else .ok (utf8proc_decompose_char_emit table options uc lastbc)

/-! ## Full-string decomposer, composer, re-encoder and map

Modelled from the spec: `utf8proc_decompose`, `utf8proc_reencode`,
`utf8proc_map` and the NFx wrappers (src/utf8proc.h lines 425-535;
implementation not among the sources), following spec sections 4.4-4.6. -/

/-- Fuel bound for the recursion through decomposition and casefold
mappings; the spec states the mapping graph is acyclic with small depth, so
this bound is never reached on oracle data satisfying the spec. -/
def utf8proc_decompose_fuel : Nat := 0x110000

/-- Decoding and per-codepoint decomposition loop of `utf8proc_decompose`
(spec section 4.4): iterate over the UTF-8 input, stop at a zero codepoint
under NULLTERM, fail with InvalidUtf8 on a decoding error, and concatenate
the per-codepoint decompositions while threading the boundary class. -/
def utf8proc_decompose_loop (table : Int → Option utf8proc_property_t)
    (lumpTbl : Int → Option Int) (options : Nat) :
    Nat → List Nat → Int → Except Int (List Int)
  | 0, _, _ => .error UTF8PROC_ERROR_OVERFLOW
  | _ + 1, [], _ => .ok []
  | fuel + 1, b :: rest, lastbc =>
    match utf8proc_iterate (b :: rest) (-1) with
    | (n, uc) =>
      if n ≤ 0 then .error UTF8PROC_ERROR_INVALIDUTF8
      else if hasOpt options UTF8PROC_NULLTERM ∧ uc = 0 then .ok []
      else do
        let r ← utf8proc_decompose_char table lumpTbl utf8proc_decompose_fuel uc
          options lastbc
        let rest2 ← utf8proc_decompose_loop table lumpTbl options fuel
          ((b :: rest).drop n.toNat) r.2
        .ok (r.1 ++ rest2)

/-- Modelled from the spec: `utf8proc_decompose` (src/utf8proc.h lines
425-443).  Checks the option set for consistency (COMPOSE and DECOMPOSE are
mutually exclusive; STRIPMARK requires one of them), runs the decoding and
decomposition loop over the input (the whole buffer under NULLTERM,
otherwise the first `strlen` bytes), and canonically reorders the resulting
codepoint buffer by combining class. -/
def utf8proc_decompose (table : Int → Option utf8proc_property_t)
    (lumpTbl : Int → Option Int) (str : List Nat) (strlen : Int)
    (options : Nat) : Except Int (List Int) :=
  if hasOpt options UTF8PROC_COMPOSE ∧ hasOpt options UTF8PROC_DECOMPOSE then
    .error UTF8PROC_ERROR_INVALIDOPTS
  else if hasOpt options UTF8PROC_STRIPMARK
      ∧ ¬ (hasOpt options UTF8PROC_COMPOSE ∨ hasOpt options UTF8PROC_DECOMPOSE) then
    .error UTF8PROC_ERROR_INVALIDOPTS
  else do
    let input := if hasOpt options UTF8PROC_NULLTERM then str else str.take strlen.toNat
    let cps ← utf8proc_decompose_loop table lumpTbl options input.length input
      UTF8PROC_BOUNDCLASS_START
    .ok (canonicalReorder
      (fun c => (utf8proc_get_property table c).combining_class) cps)

/-- Target codepoint for a newline function under the active NLF policy
(spec section 4.5): LF when both NLF2LS and NLF2PS are set, LS or PS when
exactly one is set, and a space under STRIPCC alone. -/
def utf8proc_nlf_target (options : Nat) : Int :=
  if hasOpt options UTF8PROC_NLF2LS then
    if hasOpt options UTF8PROC_NLF2PS then 0x0A else 0x2028
  else if hasOpt options UTF8PROC_NLF2PS then 0x2029
  else 0x20

/-- Newline functions: LF, CR, NEL, and additionally HT and FF when STRIPCC
is set (spec sections 4.5 and the glossary). -/
def utf8proc_is_nlf (options : Nat) (uc : Int) : Bool :=
  decide (uc = 0x0A ∨ uc = 0x0D ∨ uc = 0x85
    ∨ (hasOpt options UTF8PROC_STRIPCC = true ∧ (uc = 0x09 ∨ uc = 0x0C)))

/-- Post-processing of a single codepoint (spec section 4.5 step 1):
newline functions go to the NLF target; other C0/C1 controls are dropped
under STRIPCC, with HT replaced by a space. -/
def utf8proc_pp_one (options : Nat) (uc : Int) : List Int :=
  if utf8proc_is_nlf options uc then [utf8proc_nlf_target options]
  else if hasOpt options UTF8PROC_STRIPCC
      ∧ (uc < 0x20 ∨ (0x7F ≤ uc ∧ uc < 0xA0)) then
    if uc = 0x09 then [0x20] else []
  else [uc]

/-- Post-processing scan (spec section 4.5 step 1): a CR immediately
followed by LF collapses to a single NLF target. -/
def utf8proc_pp_go (options : Nat) : List Int → List Int
  | [] => []
  | [uc] => utf8proc_pp_one options uc
  | uc :: next :: rest =>
    if uc = 0x0D ∧ next = 0x0A then
      utf8proc_nlf_target options :: utf8proc_pp_go options rest
    else utf8proc_pp_one options uc ++ utf8proc_pp_go options (next :: rest)

/-- Post-processing pass, active only when one of the NLF2x bits or STRIPCC
is set. -/
def utf8proc_postprocess (options : Nat) (buffer : List Int) : List Int :=
  if hasOpt options UTF8PROC_NLF2LS ∨ hasOpt options UTF8PROC_NLF2PS
      ∨ hasOpt options UTF8PROC_STRIPCC then
    utf8proc_pp_go options buffer
  else buffer

/-- State of the composition walk (spec section 4.5 step 2): the output
written so far, the index of the current starter slot in it, and the
maximum combining class seen in the current non-starter run (-1 when the
run is empty). -/
structure utf8proc_compose_state where
  done : List Int
  starter : Option Nat
  maxcc : Int

/-- One step of the composition walk.  A candidate combines with the
current starter only when its combining class strictly exceeds the maximum
class seen so far in the run (the blocking rule).  Hangul L+V and LV+T
combine algorithmically; otherwise the two-sided composition table is
consulted, skipping excluded composites under STABLE.  On success the
starter slot is replaced in place; on failure the codepoint is appended and
a starter becomes the new anchor. -/
def utf8proc_compose_step (table : Int → Option utf8proc_property_t)
    (combineTbl : Int → Int → Option Int) (options : Nat)
    (st : utf8proc_compose_state) (cur : Int) : utf8proc_compose_state :=
  let curcc := (utf8proc_get_property table cur).combining_class
  let combined : Option Int :=
    match st.starter with
    | none => none
    | some si =>
      if st.maxcc < curcc ∨ (st.maxcc = -1 ∧ curcc = 0) then
        let s := st.done.getD si 0
        if 0x1100 ≤ s ∧ s < 0x1113 ∧ 0x1161 ≤ cur ∧ cur < 0x1176 then
          some (0xAC00 + ((s - 0x1100) * 21 + (cur - 0x1161)) * 28)
        else if 0xAC00 ≤ s ∧ s < 0xD7A4 ∧ (s - 0xAC00) % 28 = 0
            ∧ 0x11A7 < cur ∧ cur < 0x11C3 then
          some (s + (cur - 0x11A7))
        else if 0 ≤ (utf8proc_get_property table s).comb1st_index
            ∧ 0 ≤ (utf8proc_get_property table cur).comb2nd_index then
          match combineTbl (utf8proc_get_property table s).comb1st_index
              (utf8proc_get_property table cur).comb2nd_index with
          | some comp =>
            if hasOpt options UTF8PROC_STABLE
                ∧ (utf8proc_get_property table comp).comp_exclusion = true then
              none
            else some comp
          | none => none
        else none
      else none
  match combined, st.starter with
  | some comp, some si =>
    { done := st.done.set si comp, starter := some si, maxcc := st.maxcc }
  | _, _ =>
    if curcc = 0 then
      { done := st.done ++ [cur], starter := some st.done.length, maxcc := -1 }
    else
      { done := st.done ++ [cur], starter := st.starter, maxcc := max st.maxcc curcc }

/-- Composition pass over the whole buffer (spec section 4.5 step 2). -/
def utf8proc_compose_pass (table : Int → Option utf8proc_property_t)
    (combineTbl : Int → Int → Option Int) (options : Nat)
    (buffer : List Int) : List Int :=
  (buffer.foldl (utf8proc_compose_step table combineTbl options)
    { done := [], starter := none, maxcc := -1 }).done

/-- Modelled from the spec: `utf8proc_reencode` (src/utf8proc.h lines
445-473).  Post-processes newline functions and control characters,
optionally composes, then emits UTF-8 for each surviving codepoint (the
marker 0xFFFF becomes the single byte 0xFF inside `utf8proc_encode_char`).
The terminating zero byte of the C interface is not part of the returned
length and is not modelled. -/
def utf8proc_reencode (table : Int → Option utf8proc_property_t)
    (combineTbl : Int → Int → Option Int) (buffer : List Int)
    (options : Nat) : List Nat :=
  let pp := utf8proc_postprocess options buffer
  let composed :=
    if hasOpt options UTF8PROC_COMPOSE then
      utf8proc_compose_pass table combineTbl options pp
    else pp
  (composed.map utf8proc_encode_char).flatten

/-- Modelled from the spec: `utf8proc_map` (src/utf8proc.h lines 503-523).
The C implementation runs `utf8proc_decompose` twice (size query, then
fill) and `utf8proc_reencode` on the freshly allocated buffer; in the pure
model the two passes collapse into one and allocation failure (NoMem) does
not arise. -/
def utf8proc_map (table : Int → Option utf8proc_property_t)
    (lumpTbl : Int → Option Int) (combineTbl : Int → Int → Option Int)
    (str : List Nat) (strlen : Int) (options : Nat) : Except Int (List Nat) := do
  let cps ← utf8proc_decompose table lumpTbl str strlen options
  .ok (utf8proc_reencode table combineTbl cps options)

/-- Modelled from the spec: `utf8proc_NFD` (src/utf8proc.h line 531). -/
def utf8proc_NFD (table : Int → Option utf8proc_property_t)
    (lumpTbl : Int → Option Int) (combineTbl : Int → Int → Option Int)
    (str : List Nat) : Except Int (List Nat) :=
  utf8proc_map table lumpTbl combineTbl str 0
    (UTF8PROC_NULLTERM ||| UTF8PROC_STABLE ||| UTF8PROC_DECOMPOSE)

/-- Modelled from the spec: `utf8proc_NFC` (src/utf8proc.h line 532). -/
def utf8proc_NFC (table : Int → Option utf8proc_property_t)
    (lumpTbl : Int → Option Int) (combineTbl : Int → Int → Option Int)
    (str : List Nat) : Except Int (List Nat) :=
  utf8proc_map table lumpTbl combineTbl str 0
    (UTF8PROC_NULLTERM ||| UTF8PROC_STABLE ||| UTF8PROC_COMPOSE)

/-- Modelled from the spec: `utf8proc_NFKD` (src/utf8proc.h line 533). -/
def utf8proc_NFKD (table : Int → Option utf8proc_property_t)
    (lumpTbl : Int → Option Int) (combineTbl : Int → Int → Option Int)
    (str : List Nat) : Except Int (List Nat) :=
  utf8proc_map table lumpTbl combineTbl str 0
    (UTF8PROC_NULLTERM ||| UTF8PROC_STABLE ||| UTF8PROC_DECOMPOSE ||| UTF8PROC_COMPAT)

/-- Modelled from the spec: `utf8proc_NFKC` (src/utf8proc.h line 534). -/
def utf8proc_NFKC (table : Int → Option utf8proc_property_t)
    (lumpTbl : Int → Option Int) (combineTbl : Int → Int → Option Int)
    (str : List Nat) : Except Int (List Nat) :=
  utf8proc_map table lumpTbl combineTbl str 0
    (UTF8PROC_NULLTERM ||| UTF8PROC_STABLE ||| UTF8PROC_COMPOSE ||| UTF8PROC_COMPAT)

/-! ## Lead-byte class helper lemmas -/

/-- The length class is 1 exactly for ASCII lead bytes. -/
theorem utf8class_eq_one {b : Nat} : utf8proc_utf8class b = 1 ↔ b ≤ 0x7F := by
  unfold utf8proc_utf8class
  repeat' split
  all_goals omega

/-- The length class is 2 exactly for lead bytes 0xC2..0xDF. -/
theorem utf8class_eq_two {b : Nat} : utf8proc_utf8class b = 2 ↔ 0xC2 ≤ b ∧ b ≤ 0xDF := by
  unfold utf8proc_utf8class
  repeat' split
  all_goals omega

/-- The length class is 3 exactly for lead bytes 0xE0..0xEF. -/
theorem utf8class_eq_three {b : Nat} : utf8proc_utf8class b = 3 ↔ 0xE0 ≤ b ∧ b ≤ 0xEF := by
  unfold utf8proc_utf8class
  repeat' split
  all_goals omega

/-- The length class is 4 exactly for lead bytes 0xF0..0xF4. -/
theorem utf8class_eq_four {b : Nat} : utf8proc_utf8class b = 4 ↔ 0xF0 ≤ b ∧ b ≤ 0xF4 := by
  unfold utf8proc_utf8class
  repeat' split
  all_goals omega

/-- The length class is 0 exactly for continuation bytes and invalid leads. -/
theorem utf8class_eq_zero {b : Nat} :
    utf8proc_utf8class b = 0 ↔ (0x80 ≤ b ∧ b ≤ 0xC1) ∨ 0xF5 ≤ b := by
  unfold utf8proc_utf8class
  repeat' split
  all_goals omega

/-! ## Claim C8: interface constant values -/

/-- Claim C8: the public interface constants have exactly the numeric values
the spec fixes for binary compatibility — the fourteen option flags are the
successive powers of two from 1<<0 through 1<<13 and the five error codes are
-1 through -5 (src/utf8proc.h lines 101-182). -/
theorem utf8proc_constants_values :
    UTF8PROC_NULLTERM = 1 ∧ UTF8PROC_STABLE = 2 ∧ UTF8PROC_COMPAT = 4 ∧
    UTF8PROC_COMPOSE = 8 ∧ UTF8PROC_DECOMPOSE = 16 ∧ UTF8PROC_IGNORE = 32 ∧
    UTF8PROC_REJECTNA = 64 ∧ UTF8PROC_NLF2LS = 128 ∧ UTF8PROC_NLF2PS = 256 ∧
    UTF8PROC_STRIPCC = 512 ∧ UTF8PROC_CASEFOLD = 1024 ∧
    UTF8PROC_CHARBOUND = 2048 ∧ UTF8PROC_LUMP = 4096 ∧
    UTF8PROC_STRIPMARK = 8192 ∧ UTF8PROC_ERROR_NOMEM = -1 ∧
    UTF8PROC_ERROR_OVERFLOW = -2 ∧ UTF8PROC_ERROR_INVALIDUTF8 = -3 ∧
    UTF8PROC_ERROR_NOTASSIGNED = -4 ∧ UTF8PROC_ERROR_INVALIDOPTS = -5 := by
  decide

/-! ## Claim C5: codepoint validity -/

/-- Claim C5: for every 32-bit signed integer codepoint, the validity check
returns true if and only if the codepoint lies in [0, 0x10FFFF] and not in
the surrogate range [0xD800, 0xDFFF]; nothing else (in particular no
noncharacter) is rejected. -/
theorem utf8proc_codepoint_valid_spec (uc : Int) :
    utf8proc_codepoint_valid uc = true ↔
      (0 ≤ uc ∧ uc ≤ 0x10FFFF ∧ ¬ (0xD800 ≤ uc ∧ uc ≤ 0xDFFF)) := by
  unfold utf8proc_codepoint_valid
  simp only [Bool.and_eq_true, Bool.not_eq_true', Bool.and_eq_false_iff,
    decide_eq_true_eq, decide_eq_false_iff_not]
  omega

/-! ## Claim C1: iterate followed by encode reproduces the input bytes

The claim as stated is false in one corner: a well-formed three-byte sequence
decoding to the noncharacter U+FFFF (bytes 0xEF 0xBF 0xBF) is accepted by
`utf8proc_iterate`, but `utf8proc_encode_char` emits the single
grapheme-marker byte 0xFF for the value 0xFFFF (spec section 4.1), so the
original bytes are not reproduced.  The amended statement excludes that one
codepoint. -/

/-- Claim C1 counterexample: the well-formed UTF-8 sequence 0xEF 0xBF 0xBF
decodes to U+FFFF consuming 3 bytes, but re-encoding U+FFFF yields the single
byte 0xFF, not the original three bytes. -/
theorem utf8proc_iterate_encode_roundtrip_counterexample :
    utf8proc_iterate [0xEF, 0xBF, 0xBF] (-1) = (3, 0xFFFF) ∧
    utf8proc_encode_char 0xFFFF = [0xFF] ∧
    ¬ utf8proc_encode_char 0xFFFF = List.take ((3 : Int)).toNat [0xEF, 0xBF, 0xBF] := by
  decide

set_option maxHeartbeats 2000000 in
/-- Claim C1 (amended): whenever `utf8proc_iterate` successfully decodes a
codepoint other than the grapheme-marker value 0xFFFF, re-encoding that
codepoint with `utf8proc_encode_char` reproduces exactly the consumed bytes
(same byte values, same count). -/
theorem utf8proc_iterate_encode_roundtrip
    (str : List Nat) (strlen : Int) (n cp : Int)
    (h : utf8proc_iterate str strlen = (n, cp)) (hn : 0 < n) (hm : cp ≠ 0xFFFF) :
    utf8proc_encode_char cp = List.take n.toNat str := by
  cases str with
  | nil =>
    simp only [utf8proc_iterate, UTF8PROC_ERROR_INVALIDUTF8, Prod.mk.injEq] at h
    omega
  | cons b0 t =>
    simp only [utf8proc_iterate] at h
    repeat' split at h
    all_goals simp only [UTF8PROC_ERROR_INVALIDUTF8, Prod.mk.injEq] at h
    all_goals try omega
    all_goals obtain ⟨h1, h2⟩ := h
    all_goals subst h1
    all_goals subst h2
    all_goals simp only [utf8class_eq_one, utf8class_eq_two, utf8class_eq_three,
      utf8class_eq_four, utf8class_eq_zero, utf8proc_cp2, utf8proc_cp3,
      utf8proc_cp4] at *
    all_goals simp
    all_goals unfold utf8proc_encode_char
    all_goals repeat' split
    all_goals
      first
      | (exfalso; omega)
      | (simp only [List.cons.injEq, Int.toNat_natCast, and_true]; try omega)

/-- Claim C1 witness: the two-byte sequence 0xC3 0xA9 decodes to U+00E9 and
re-encodes to exactly those two bytes. -/
theorem utf8proc_iterate_encode_roundtrip_witness :
    utf8proc_encode_char 0xE9 = List.take ((2 : Int)).toNat [0xC3, 0xA9] :=
  utf8proc_iterate_encode_roundtrip [0xC3, 0xA9] (-1) 2 0xE9 (by decide) (by decide)
    (by decide)

/-! ## Evaluation lemmas for the decoder -/

/-- With a negative length limit the decoder may read the whole buffer. -/
theorem iterAvail_neg (str : List Nat) (strlen : Int) (h : strlen < 0) :
    iterAvail str strlen = str.length := by
  simp only [iterAvail]
  rw [if_pos h]

/-- The decoder fails when no byte may be read, the lead byte is invalid, or
fewer bytes are available than the lead byte announces. -/
theorem utf8proc_iterate_err (b0 : Nat) (t : List Nat) (strlen : Int)
    (h : iterAvail (b0 :: t) strlen = 0
       ∨ utf8proc_utf8class b0 = 0
       ∨ iterAvail (b0 :: t) strlen < utf8proc_utf8class b0) :
    utf8proc_iterate (b0 :: t) strlen = (UTF8PROC_ERROR_INVALIDUTF8, -1) := by
  by_cases h0 : iterAvail (b0 :: t) strlen = 0
  · simp only [utf8proc_iterate]
    rw [if_pos h0]
  · simp only [utf8proc_iterate]
    rw [if_neg h0, if_pos (show utf8proc_utf8class b0 = 0
        ∨ iterAvail (b0 :: t) strlen < utf8proc_utf8class b0 by omega)]

/-- Evaluation of the decoder on a three-byte lead with two continuation
bytes available: only the surrogate and over-long checks remain. -/
theorem utf8proc_iterate_three_eval (b0 b1 b2 : Nat) (t : List Nat) (strlen : Int)
    (hcl : utf8proc_utf8class b0 = 3)
    (hav : 3 ≤ iterAvail (b0 :: b1 :: b2 :: t) strlen)
    (hb1 : 0x80 ≤ b1 ∧ b1 ≤ 0xBF) (hb2 : 0x80 ≤ b2 ∧ b2 ≤ 0xBF) :
    utf8proc_iterate (b0 :: b1 :: b2 :: t) strlen
      = if utf8proc_cp3 b0 b1 b2 < 0x800
            ∨ (0xD800 ≤ utf8proc_cp3 b0 b1 b2 ∧ utf8proc_cp3 b0 b1 b2 ≤ 0xDFFF) then
          (UTF8PROC_ERROR_INVALIDUTF8, -1)
        else ((3 : Int), ((utf8proc_cp3 b0 b1 b2 : Nat) : Int)) := by
  simp only [utf8proc_iterate]
  rw [if_neg (show ¬ iterAvail (b0 :: b1 :: b2 :: t) strlen = 0 by omega),
      if_neg (show ¬ (utf8proc_utf8class b0 = 0
          ∨ iterAvail (b0 :: b1 :: b2 :: t) strlen < utf8proc_utf8class b0) by omega),
      if_neg (show ¬ utf8proc_utf8class b0 = 1 by omega),
      if_neg (not_not_intro hb1),
      if_neg (show ¬ utf8proc_utf8class b0 = 2 by omega),
      if_neg (not_not_intro hb2),
      if_pos hcl]

/-- Evaluation of the decoder on a four-byte lead with three continuation
bytes available: only the range checks remain. -/
theorem utf8proc_iterate_four_eval (b0 b1 b2 b3 : Nat) (t : List Nat) (strlen : Int)
    (hcl : utf8proc_utf8class b0 = 4)
    (hav : 4 ≤ iterAvail (b0 :: b1 :: b2 :: b3 :: t) strlen)
    (hb1 : 0x80 ≤ b1 ∧ b1 ≤ 0xBF) (hb2 : 0x80 ≤ b2 ∧ b2 ≤ 0xBF)
    (hb3 : 0x80 ≤ b3 ∧ b3 ≤ 0xBF) :
    utf8proc_iterate (b0 :: b1 :: b2 :: b3 :: t) strlen
      = if utf8proc_cp4 b0 b1 b2 b3 < 0x10000 ∨ 0x10FFFF < utf8proc_cp4 b0 b1 b2 b3 then
          (UTF8PROC_ERROR_INVALIDUTF8, -1)
        else ((4 : Int), ((utf8proc_cp4 b0 b1 b2 b3 : Nat) : Int)) := by
  simp only [utf8proc_iterate]
  rw [if_neg (show ¬ iterAvail (b0 :: b1 :: b2 :: b3 :: t) strlen = 0 by omega),
      if_neg (show ¬ (utf8proc_utf8class b0 = 0
          ∨ iterAvail (b0 :: b1 :: b2 :: b3 :: t) strlen < utf8proc_utf8class b0) by omega),
      if_neg (show ¬ utf8proc_utf8class b0 = 1 by omega),
      if_neg (not_not_intro hb1),
      if_neg (show ¬ utf8proc_utf8class b0 = 2 by omega),
      if_neg (not_not_intro hb2),
      if_neg (show ¬ utf8proc_utf8class b0 = 3 by omega),
      if_neg (not_not_intro hb3),
      if_pos hcl]

/-! ## Claim C4: every ill-formed sequence is rejected as InvalidUtf8 -/

set_option maxHeartbeats 2000000 in
/-- Claim C4: `utf8proc_iterate` reports every failure as the error code
InvalidUtf8 with the codepoint output set to -1 (first conjunct), and it
fails in exactly that way on each family of ill-formed input: surrogate-range
scalars (lead 0xED with second byte 0xA0..0xBF), scalars above 0x10FFFF
(lead 0xF4 with second byte 0x90..0xBF), the over-long leads 0xC0/0xC1,
over-long three-byte forms (lead 0xE0, second byte below 0xA0), over-long
four-byte forms (lead 0xF0, second byte below 0x90), invalid lead bytes
(0x80..0xC1 and 0xF5 upward), and multi-byte sequences truncated either by
the end of the buffer or by a nonnegative `strlen` limit. -/
theorem utf8proc_iterate_invalid_utf8 :
    (∀ str strlen n cp, utf8proc_iterate str strlen = (n, cp) → n < 0 →
        n = UTF8PROC_ERROR_INVALIDUTF8 ∧ cp = -1) ∧
    (∀ b1 b2 rest, 0xA0 ≤ b1 → b1 ≤ 0xBF → 0x80 ≤ b2 → b2 ≤ 0xBF →
        utf8proc_iterate (0xED :: b1 :: b2 :: rest) (-1)
          = (UTF8PROC_ERROR_INVALIDUTF8, -1)) ∧
    (∀ b1 b2 b3 rest, 0x90 ≤ b1 → b1 ≤ 0xBF → 0x80 ≤ b2 → b2 ≤ 0xBF →
        0x80 ≤ b3 → b3 ≤ 0xBF →
        utf8proc_iterate (0xF4 :: b1 :: b2 :: b3 :: rest) (-1)
          = (UTF8PROC_ERROR_INVALIDUTF8, -1)) ∧
    (∀ rest strlen,
        utf8proc_iterate (0xC0 :: rest) strlen = (UTF8PROC_ERROR_INVALIDUTF8, -1) ∧
        utf8proc_iterate (0xC1 :: rest) strlen = (UTF8PROC_ERROR_INVALIDUTF8, -1)) ∧
    (∀ b1 b2 rest, 0x80 ≤ b1 → b1 ≤ 0x9F → 0x80 ≤ b2 → b2 ≤ 0xBF →
        utf8proc_iterate (0xE0 :: b1 :: b2 :: rest) (-1)
          = (UTF8PROC_ERROR_INVALIDUTF8, -1)) ∧
    (∀ b1 b2 b3 rest, 0x80 ≤ b1 → b1 ≤ 0x8F → 0x80 ≤ b2 → b2 ≤ 0xBF →
        0x80 ≤ b3 → b3 ≤ 0xBF →
        utf8proc_iterate (0xF0 :: b1 :: b2 :: b3 :: rest) (-1)
          = (UTF8PROC_ERROR_INVALIDUTF8, -1)) ∧
    (∀ b rest strlen, (0x80 ≤ b ∧ b ≤ 0xC1) ∨ 0xF5 ≤ b →
        utf8proc_iterate (b :: rest) strlen = (UTF8PROC_ERROR_INVALIDUTF8, -1)) ∧
    (∀ b rest, 2 ≤ utf8proc_utf8class b → rest.length + 1 < utf8proc_utf8class b →
        utf8proc_iterate (b :: rest) (-1) = (UTF8PROC_ERROR_INVALIDUTF8, -1)) ∧
    (∀ b rest strlen, 0 ≤ strlen → strlen < (utf8proc_utf8class b : Int) →
        utf8proc_iterate (b :: rest) strlen = (UTF8PROC_ERROR_INVALIDUTF8, -1)) := by
  refine ⟨?_, ?_, ?_, ?_, ?_, ?_, ?_, ?_, ?_⟩
  · intro str strlen n cp h hneg
    cases str with
    | nil =>
      simp only [utf8proc_iterate, UTF8PROC_ERROR_INVALIDUTF8, Prod.mk.injEq] at h ⊢
      omega
    | cons b0 t =>
      simp only [utf8proc_iterate] at h
      repeat' split at h
      all_goals simp only [UTF8PROC_ERROR_INVALIDUTF8, Prod.mk.injEq] at h ⊢
      all_goals omega
  · intro b1 b2 rest hb1a hb1b hb2a hb2b
    have hav : 3 ≤ iterAvail (0xED :: b1 :: b2 :: rest) (-1) := by
      rw [iterAvail_neg _ _ (by decide)]
      simp only [List.length_cons]
      omega
    rw [utf8proc_iterate_three_eval 0xED b1 b2 rest (-1) (by decide) hav
          ⟨by omega, by omega⟩ ⟨hb2a, hb2b⟩,
        if_pos (show utf8proc_cp3 0xED b1 b2 < 0x800
            ∨ (0xD800 ≤ utf8proc_cp3 0xED b1 b2 ∧ utf8proc_cp3 0xED b1 b2 ≤ 0xDFFF) by
          simp only [utf8proc_cp3]
          omega)]
  · intro b1 b2 b3 rest hb1a hb1b hb2a hb2b hb3a hb3b
    have hav : 4 ≤ iterAvail (0xF4 :: b1 :: b2 :: b3 :: rest) (-1) := by
      rw [iterAvail_neg _ _ (by decide)]
      simp only [List.length_cons]
      omega
    rw [utf8proc_iterate_four_eval 0xF4 b1 b2 b3 rest (-1) (by decide) hav
          ⟨by omega, by omega⟩ ⟨hb2a, hb2b⟩ ⟨hb3a, hb3b⟩,
        if_pos (show utf8proc_cp4 0xF4 b1 b2 b3 < 0x10000
            ∨ 0x10FFFF < utf8proc_cp4 0xF4 b1 b2 b3 by
          simp only [utf8proc_cp4]
          omega)]
  · intro rest strlen
    exact ⟨utf8proc_iterate_err _ _ _ (Or.inr (Or.inl (by decide))),
      utf8proc_iterate_err _ _ _ (Or.inr (Or.inl (by decide)))⟩
  · intro b1 b2 rest hb1a hb1b hb2a hb2b
    have hav : 3 ≤ iterAvail (0xE0 :: b1 :: b2 :: rest) (-1) := by
      rw [iterAvail_neg _ _ (by decide)]
      simp only [List.length_cons]
      omega
    rw [utf8proc_iterate_three_eval 0xE0 b1 b2 rest (-1) (by decide) hav
          ⟨hb1a, by omega⟩ ⟨hb2a, hb2b⟩,
        if_pos (show utf8proc_cp3 0xE0 b1 b2 < 0x800
            ∨ (0xD800 ≤ utf8proc_cp3 0xE0 b1 b2 ∧ utf8proc_cp3 0xE0 b1 b2 ≤ 0xDFFF) by
          simp only [utf8proc_cp3]
          omega)]
  · intro b1 b2 b3 rest hb1a hb1b hb2a hb2b hb3a hb3b
    have hav : 4 ≤ iterAvail (0xF0 :: b1 :: b2 :: b3 :: rest) (-1) := by
      rw [iterAvail_neg _ _ (by decide)]
      simp only [List.length_cons]
      omega
    rw [utf8proc_iterate_four_eval 0xF0 b1 b2 b3 rest (-1) (by decide) hav
          ⟨hb1a, by omega⟩ ⟨hb2a, hb2b⟩ ⟨hb3a, hb3b⟩,
        if_pos (show utf8proc_cp4 0xF0 b1 b2 b3 < 0x10000
            ∨ 0x10FFFF < utf8proc_cp4 0xF0 b1 b2 b3 by
          simp only [utf8proc_cp4]
          omega)]
  · intro b rest strlen hb
    exact utf8proc_iterate_err _ _ _ (Or.inr (Or.inl (utf8class_eq_zero.mpr hb)))
  · intro b rest hcl hlen
    apply utf8proc_iterate_err
    right; right
    rw [iterAvail_neg _ _ (by decide)]
    simp only [List.length_cons]
    omega
  · intro b rest strlen hs hlim
    apply utf8proc_iterate_err
    by_cases h0 : iterAvail (b :: rest) strlen = 0
    · exact Or.inl h0
    · right; right
      have hle : iterAvail (b :: rest) strlen ≤ strlen.toNat := by
        simp only [iterAvail]
        rw [if_neg (by omega)]
        exact Nat.min_le_right _ _
      omega

/-- Claim C4 witness: the lone surrogate encoding 0xED 0xA0 0x80 is rejected
as InvalidUtf8 with codepoint output -1. -/
theorem utf8proc_iterate_invalid_utf8_witness :
    utf8proc_iterate [0xED, 0xA0, 0x80] (-1) = (UTF8PROC_ERROR_INVALIDUTF8, -1) :=
  utf8proc_iterate_invalid_utf8.2.1 0xA0 0x80 [] (by decide) (by decide) (by decide)
    (by decide)

/-- Indexing the category-name array agrees with the case-by-case names on
every in-range category value. -/
theorem utf8proc_category_strings_getD (k : Int) (h0 : 0 ≤ k) (h30 : k < 30) :
    utf8proc_category_strings.getD k.toNat "" = utf8proc_category_name k := by
  unfold utf8proc_category_name
  have hn : k.toNat < 30 := by omega
  set m := k.toNat with hm
  interval_cases m <;> rfl

/-! ## Claim C10: category lookup -/

/-- Claim C10: `utf8proc_category` is total over all Int codepoints and
returns exactly the category field of the record `utf8proc_get_property`
yields; for a codepoint with no assigned properties (including all
codepoints outside the Unicode range) this is UTF8PROC_CATEGORY_CN = 0, and
`utf8proc_category_string` returns the two-letter name of that same
category. -/
theorem utf8proc_category_spec (table : Int → Option utf8proc_property_t) (uc : Int) :
    utf8proc_category table uc = (utf8proc_get_property table uc).category ∧
    ((uc < 0 ∨ 0x10FFFF < uc ∨ table uc = none) →
      utf8proc_category table uc = UTF8PROC_CATEGORY_CN) ∧
    (0 ≤ utf8proc_category table uc → utf8proc_category table uc < 30 →
      utf8proc_category_string table uc
        = utf8proc_category_name (utf8proc_category table uc)) := by
  refine ⟨rfl, ?_, ?_⟩
  · intro h
    unfold utf8proc_category utf8proc_get_property UTF8PROC_CATEGORY_CN
    rcases h with h | h | h
    · rw [if_neg (by omega)]
      rfl
    · rw [if_neg (by omega)]
      rfl
    · split
      · rw [h]
        rfl
      · rfl
  · intro h0 h30
    exact utf8proc_category_strings_getD _ h0 h30

/-- Claim C10 witness: with an oracle that assigns no codepoint, the category
of U+0041 is CN = 0 and the category string is the matching name. -/
theorem utf8proc_category_spec_witness :
    utf8proc_category (fun _ => none) 0x41 = UTF8PROC_CATEGORY_CN ∧
    utf8proc_category_string (fun _ => none) 0x41
      = utf8proc_category_name (utf8proc_category (fun _ => none) 0x41) :=
  ⟨(utf8proc_category_spec (fun _ => none) 0x41).2.1 (Or.inr (Or.inr rfl)),
   (utf8proc_category_spec (fun _ => none) 0x41).2.2 (by decide) (by decide)⟩

/-- Filtering on one combining-class value commutes with ordered insertion:
the skipped elements all have a strictly smaller class than the inserted
one, so an element never jumps over an element of its own class. -/
theorem filter_orderedInsert_cc (cc : Int → Int) (k a : Int) :
    ∀ L : List Int,
      (List.orderedInsert (fun x y => cc x ≤ cc y) a L).filter
          (fun x => decide (cc x = k))
        = if cc a = k then a :: L.filter (fun x => decide (cc x = k))
          else L.filter (fun x => decide (cc x = k)) := by
  intro L
  induction L with
  | nil =>
    by_cases h : cc a = k <;> simp [List.orderedInsert, List.filter_cons, h]
  | cons b L ih =>
    simp only [List.orderedInsert]
    by_cases hr : cc a ≤ cc b
    · rw [if_pos hr]
      by_cases h : cc a = k <;> by_cases hb : cc b = k <;>
        simp [List.filter_cons, h, hb]
    · rw [if_neg hr]
      by_cases hb : cc b = k
      · by_cases h : cc a = k
        · exfalso
          omega
        · simp [List.filter_cons, hb, ih, h]
      · simp [List.filter_cons, hb, ih]

/-- Filtering on one combining-class value is invariant under insertion
sort by combining class (stability of the sort, class by class). -/
theorem filter_insertionSort_cc (cc : Int → Int) (k : Int) :
    ∀ l : List Int,
      (List.insertionSort (fun x y => cc x ≤ cc y) l).filter
          (fun x => decide (cc x = k))
        = l.filter (fun x => decide (cc x = k)) := by
  intro l
  induction l with
  | nil => rfl
  | cons a l ih =>
    simp only [List.insertionSort]
    rw [filter_orderedInsert_cc, ih]
    by_cases h : cc a = k <;> simp [List.filter_cons, h]

/-- Taking the leading nonzero-class run is unaffected by anything behind a
starter. -/
theorem takeWhile_append_cons_of_neg (p : Int → Bool) (s : Int) (hs : p s = false) :
    ∀ (t bs : List Int), (t ++ s :: bs).takeWhile p = t.takeWhile p
  | [], bs => by simp [List.takeWhile_cons, hs]
  | a :: t, bs => by
    simp only [List.cons_append, List.takeWhile_cons]
    cases hpa : p a
    · simp
    · simp [takeWhile_append_cons_of_neg p s hs t bs]

/-- Dropping the leading nonzero-class run stops at a starter. -/
theorem dropWhile_append_cons_of_neg (p : Int → Bool) (s : Int) (hs : p s = false) :
    ∀ (t bs : List Int), (t ++ s :: bs).dropWhile p = t.dropWhile p ++ s :: bs
  | [], bs => by simp [List.dropWhile_cons, hs]
  | a :: t, bs => by
    simp only [List.cons_append, List.dropWhile_cons]
    cases hpa : p a
    · simp
    · simp [dropWhile_append_cons_of_neg p s hs t bs]

/-- The head of the dropped rest, if any, is a starter. -/
theorem head_dropWhile_cc (cc : Int → Int) :
    ∀ t : List Int,
      ∀ y ∈ (t.dropWhile (fun y => decide (cc y ≠ 0))).head?, cc y = 0 := by
  intro t
  induction t with
  | nil => simp
  | cons a t ih =>
    simp only [List.dropWhile_cons]
    by_cases ha : cc a = 0
    · simp [ha]
    · simp only [decide_eq_true_eq]
      rw [if_pos (by simp [ha])]
      exact ih

/-- The head of a reordered list whose head is a starter is that starter. -/
theorem canonicalReorder_head_starter (cc : Int → Int) :
    ∀ l : List Int, (∀ z ∈ l.head?, cc z = 0) →
      ∀ y ∈ (canonicalReorder cc l).head?, cc y = 0 := by
  intro l hz
  match l with
  | [] => simp [canonicalReorder]
  | x :: t =>
    have hx : cc x = 0 := hz x (by simp)
    intro y hy
    simp only [canonicalReorder, if_pos hx, List.head?_cons, Option.mem_def,
      Option.some.injEq] at hy
    rw [← hy]
    exact hx

/-- Canonical reordering preserves the length of the buffer. -/
theorem canonicalReorder_length (cc : Int → Int) :
    ∀ l : List Int, (canonicalReorder cc l).length = l.length := by
  intro l
  induction l using canonicalReorder.induct cc with
  | case1 => simp [canonicalReorder]
  | case2 x t hx ih =>
    simp [canonicalReorder, hx, ih]
  | case3 x t hx ih =>
    rw [show canonicalReorder cc (x :: t)
        = List.insertionSort (fun a b => cc a ≤ cc b)
            (x :: t.takeWhile (fun y => decide (cc y ≠ 0)))
          ++ canonicalReorder cc (t.dropWhile (fun y => decide (cc y ≠ 0))) from by
      simp [canonicalReorder, hx]]
    rw [List.length_append, (List.perm_insertionSort _ _).length_eq, ih]
    have h2 := congrArg List.length
      (List.takeWhile_append_dropWhile (fun y => decide (cc y ≠ 0)) t)
    rw [List.length_append] at h2
    simp only [List.length_cons]
    omega

/-- Canonical reordering is stable: for every combining-class value, the
subsequence of codepoints having exactly that class is unchanged. -/
theorem canonicalReorder_filter (cc : Int → Int) (k : Int) :
    ∀ l : List Int,
      (canonicalReorder cc l).filter (fun x => decide (cc x = k))
        = l.filter (fun x => decide (cc x = k)) := by
  intro l
  induction l using canonicalReorder.induct cc with
  | case1 => simp [canonicalReorder]
  | case2 x t hx ih =>
    rw [show canonicalReorder cc (x :: t) = x :: canonicalReorder cc t from by
      simp [canonicalReorder, hx]]
    by_cases h : cc x = k <;> simp [List.filter_cons, h, ih]
  | case3 x t hx ih =>
    rw [show canonicalReorder cc (x :: t)
        = List.insertionSort (fun a b => cc a ≤ cc b)
            (x :: t.takeWhile (fun y => decide (cc y ≠ 0)))
          ++ canonicalReorder cc (t.dropWhile (fun y => decide (cc y ≠ 0))) from by
      simp [canonicalReorder, hx]]
    rw [List.filter_append, filter_insertionSort_cc, ih, ← List.filter_append,
      List.cons_append, List.takeWhile_append_dropWhile]

/-- Starters anchor the reorder: the reordering of a buffer around a starter
is the reordering of the two sides with the starter fixed in place. -/
theorem canonicalReorder_anchor (cc : Int → Int) (s : Int) (hs : cc s = 0) :
    ∀ (n : Nat) (as bs : List Int), as.length ≤ n →
      canonicalReorder cc (as ++ s :: bs)
        = canonicalReorder cc as ++ s :: canonicalReorder cc bs := by
  intro n
  induction n with
  | zero =>
    intro as bs h
    have hnil : as = [] := List.length_eq_zero.mp (Nat.le_zero.mp h)
    subst hnil
    simp only [List.nil_append]
    rw [show canonicalReorder cc (s :: bs) = s :: canonicalReorder cc bs from by
      simp [canonicalReorder, hs]]
    simp [canonicalReorder]
  | succ n ih =>
    intro as bs h
    match as with
    | [] =>
      simp only [List.nil_append]
      rw [show canonicalReorder cc (s :: bs) = s :: canonicalReorder cc bs from by
        simp [canonicalReorder, hs]]
      simp [canonicalReorder]
    | x :: t =>
      have hlen : t.length ≤ n := by
        simp only [List.length_cons] at h
        omega
      by_cases hx : cc x = 0
      · rw [List.cons_append,
          show canonicalReorder cc (x :: (t ++ s :: bs))
            = x :: canonicalReorder cc (t ++ s :: bs) from by
              simp [canonicalReorder, hx],
          show canonicalReorder cc (x :: t) = x :: canonicalReorder cc t from by
            simp [canonicalReorder, hx],
          ih t bs hlen, List.cons_append]
      · have hp : (fun y => decide (cc y ≠ 0)) s = false := by simp [hs]
        rw [List.cons_append,
          show canonicalReorder cc (x :: (t ++ s :: bs))
            = List.insertionSort (fun a b => cc a ≤ cc b)
                (x :: (t ++ s :: bs).takeWhile (fun y => decide (cc y ≠ 0)))
              ++ canonicalReorder cc
                  ((t ++ s :: bs).dropWhile (fun y => decide (cc y ≠ 0))) from by
            simp [canonicalReorder, hx],
          show canonicalReorder cc (x :: t)
            = List.insertionSort (fun a b => cc a ≤ cc b)
                (x :: t.takeWhile (fun y => decide (cc y ≠ 0)))
              ++ canonicalReorder cc (t.dropWhile (fun y => decide (cc y ≠ 0))) from by
            simp [canonicalReorder, hx],
          takeWhile_append_cons_of_neg _ _ hp, dropWhile_append_cons_of_neg _ _ hp,
          ih (t.dropWhile (fun y => decide (cc y ≠ 0))) bs
            (le_trans (List.dropWhile_sublist _).length_le hlen),
          List.append_assoc]

/-- Within the reordered buffer, combining classes are monotone along every
run of non-starters: adjacent codepoints that both have nonzero class are in
nondecreasing class order. -/
theorem canonicalReorder_chain (cc : Int → Int) :
    ∀ l : List Int,
      List.Chain' (fun a b => cc a ≠ 0 → cc b ≠ 0 → cc a ≤ cc b)
        (canonicalReorder cc l) := by
  intro l
  haveI hTot : IsTotal Int (fun a b => cc a ≤ cc b) := ⟨fun a b => le_total _ _⟩
  haveI hTrans : IsTrans Int (fun a b => cc a ≤ cc b) :=
    ⟨fun _ _ _ hab hbc => le_trans hab hbc⟩
  induction l using canonicalReorder.induct cc with
  | case1 => simp [canonicalReorder]
  | case2 x t hx ih =>
    rw [show canonicalReorder cc (x :: t) = x :: canonicalReorder cc t from by
      simp [canonicalReorder, hx]]
    rw [List.chain'_cons']
    exact ⟨fun y _ hx0 _ => absurd hx hx0, ih⟩
  | case3 x t hx ih =>
    rw [show canonicalReorder cc (x :: t)
        = List.insertionSort (fun a b => cc a ≤ cc b)
            (x :: t.takeWhile (fun y => decide (cc y ≠ 0)))
          ++ canonicalReorder cc (t.dropWhile (fun y => decide (cc y ≠ 0))) from by
      simp [canonicalReorder, hx]]
    rw [List.chain'_append]
    refine ⟨?_, ih, ?_⟩
    · have hs := List.sorted_insertionSort (fun a b : Int => cc a ≤ cc b)
        (x :: t.takeWhile (fun y => decide (cc y ≠ 0)))
      exact List.Pairwise.chain' (List.Pairwise.imp (fun hab _ _ => hab) hs)
    · intro a ha y hy
      have hy0 : cc y = 0 :=
        canonicalReorder_head_starter cc _ (head_dropWhile_cc cc t) y hy
      intro _ hy1
      exact absurd hy0 hy1

/-! ## Claim C6: canonical reordering is a stable, starter-anchored sort -/

/-- Claim C6: the canonical reordering performed after decomposition sorts
each maximal run of nonzero-combining-class codepoints stably by combining
class.  First conjunct: stability — for every class value the subsequence of
codepoints with exactly that class is unchanged, so equal-class codepoints
keep their relative order.  Second conjunct: starters (class 0) are never
moved or crossed — reordering a buffer around a starter reorders the two
sides independently with the starter fixed.  Third conjunct: no codepoint is
dropped or duplicated.  Fourth conjunct: the result is sorted within runs —
adjacent codepoints of nonzero class have nondecreasing classes. -/
theorem utf8proc_canonical_reorder_stable (cc : Int → Int) :
    (∀ (l : List Int) (k : Int),
      (canonicalReorder cc l).filter (fun x => decide (cc x = k))
        = l.filter (fun x => decide (cc x = k))) ∧
    (∀ (as : List Int) (s : Int) (bs : List Int), cc s = 0 →
      canonicalReorder cc (as ++ s :: bs)
        = canonicalReorder cc as ++ s :: canonicalReorder cc bs) ∧
    (∀ l : List Int, (canonicalReorder cc l).length = l.length) ∧
    (∀ l : List Int,
      List.Chain' (fun a b => cc a ≠ 0 → cc b ≠ 0 → cc a ≤ cc b)
        (canonicalReorder cc l)) := by
  refine ⟨fun l k => canonicalReorder_filter cc k l,
    fun as s bs hs => canonicalReorder_anchor cc s hs as.length as bs le_rfl,
    canonicalReorder_length cc,
    canonicalReorder_chain cc⟩

/-- Claim C6 witness: with the identity as combining-class assignment, the
starter 0 anchors the reorder of [3, 1] ++ 0 :: [2]. -/
theorem utf8proc_canonical_reorder_stable_witness :
    canonicalReorder (fun x => x) ([3, 1] ++ 0 :: [2])
      = canonicalReorder (fun x => x) [3, 1]
        ++ 0 :: canonicalReorder (fun x => x) [2] :=
  (utf8proc_canonical_reorder_stable (fun x => x)).2.1 [3, 1] 0 [2] rfl

/-! ## Claim C7: algorithmic Hangul decomposition -/

/-- Claim C7: for every codepoint in the Hangul syllable block
[0xAC00, 0xD7A4), when the options request decomposition (COMPOSE or
DECOMPOSE set), `utf8proc_decompose_char` emits exactly the algorithmic
Hangul decomposition: with s = cp - 0xAC00 it emits L = 0x1100 + s/588 and
V = 0x1161 + (s%588)/28, followed by 0x11A7 + s%28 when s%28 is nonzero and
by nothing otherwise.  The hypotheses on the property record state the facts
the Unicode database provides for every Hangul syllable (assigned, not
ignorable, not a mark, no casefold mapping), which keep the earlier pipeline
steps from firing; the carried boundary class is left unchanged. -/
theorem utf8proc_decompose_char_hangul
    (table : Int → Option utf8proc_property_t) (lumpTbl : Int → Option Int)
    (fuel : Nat) (options : Nat) (uc lastbc : Int)
    (hrange : 0xAC00 ≤ uc ∧ uc < 0xD7A4)
    (hopts : hasOpt options UTF8PROC_COMPOSE = true
        ∨ hasOpt options UTF8PROC_DECOMPOSE = true)
    (hcat : (utf8proc_get_property table uc).category ≠ UTF8PROC_CATEGORY_CN)
    (hmark : ¬ ((utf8proc_get_property table uc).category = UTF8PROC_CATEGORY_MN
        ∨ (utf8proc_get_property table uc).category = UTF8PROC_CATEGORY_MC
        ∨ (utf8proc_get_property table uc).category = UTF8PROC_CATEGORY_ME))
    (hign : (utf8proc_get_property table uc).ignorable = false)
    (hcf : (utf8proc_get_property table uc).casefold_mapping = none) :
    utf8proc_decompose_char table lumpTbl (fuel + 1) uc options lastbc
      = .ok ((0x1100 + (uc - 0xAC00) / 588)
          :: (0x1161 + ((uc - 0xAC00) % 588) / 28)
          :: (if (uc - 0xAC00) % 28 = 0 then []
              else [0x11A7 + (uc - 0xAC00) % 28]), lastbc) := by
  simp only [utf8proc_decompose_char]
  rw [if_neg (show ¬ (hasOpt options UTF8PROC_REJECTNA = true
      ∧ (utf8proc_get_property table uc).category = UTF8PROC_CATEGORY_CN) from
    fun h => hcat h.2)]
  rw [if_neg (show ¬ (hasOpt options UTF8PROC_IGNORE = true
      ∧ ((utf8proc_get_property table uc).ignorable = true ∨ uc = 0xAD)) from
    fun h => h.2.elim (fun hi => by rw [hign] at hi; exact Bool.false_ne_true hi)
      (fun he => by omega))]
  rw [if_neg (show ¬ (hasOpt options UTF8PROC_STRIPMARK = true
      ∧ ((utf8proc_get_property table uc).category = UTF8PROC_CATEGORY_MN
         ∨ (utf8proc_get_property table uc).category = UTF8PROC_CATEGORY_MC
         ∨ (utf8proc_get_property table uc).category = UTF8PROC_CATEGORY_ME)) from
    fun h => hmark h.2)]
  simp only [hcf, ite_self]
  rw [if_pos (show (0xAC00 ≤ uc ∧ uc < 0xD7A4)
      ∧ (hasOpt options UTF8PROC_COMPOSE = true
         ∨ hasOpt options UTF8PROC_DECOMPOSE = true) from ⟨hrange, hopts⟩)]

/-- Claim C7 witness: with a property oracle assigning category Lo to every
codepoint, the Hangul syllable U+AC01 decomposes to the jamo sequence
U+1100, U+1161, U+11A8. -/
theorem utf8proc_decompose_char_hangul_witness :
    utf8proc_decompose_char (fun _ => some { utf8proc_property_default with category := 5 })
        (fun _ => none) 1 0xAC01 UTF8PROC_DECOMPOSE 0
      = .ok ([0x1100, 0x1161, 0x11A8], 0) := by
  have h := utf8proc_decompose_char_hangul
    (fun _ => some { utf8proc_property_default with category := 5 })
    (fun _ => none) 0 UTF8PROC_DECOMPOSE 0xAC01 0
    (by decide) (Or.inr (by decide)) (by decide) (by decide) (by decide) (by decide)
  rw [h]
  norm_num

/-! ## Claim C9: inconsistent option sets fail with InvalidOpts -/

/-- Claim C9: for every input string and every inconsistent option set —
STRIPMARK without COMPOSE or DECOMPOSE, or COMPOSE and DECOMPOSE set
together — `utf8proc_decompose` fails with InvalidOpts, and hence
`utf8proc_map` fails with InvalidOpts as well. -/
theorem utf8proc_decompose_invalidopts
    (table : Int → Option utf8proc_property_t) (lumpTbl : Int → Option Int)
    (combineTbl : Int → Int → Option Int) (str : List Nat) (strlen : Int)
    (options : Nat)
    (h : (hasOpt options UTF8PROC_STRIPMARK = true
          ∧ hasOpt options UTF8PROC_COMPOSE = false
          ∧ hasOpt options UTF8PROC_DECOMPOSE = false)
        ∨ (hasOpt options UTF8PROC_COMPOSE = true
          ∧ hasOpt options UTF8PROC_DECOMPOSE = true)) :
    utf8proc_decompose table lumpTbl str strlen options
        = .error UTF8PROC_ERROR_INVALIDOPTS
      ∧ utf8proc_map table lumpTbl combineTbl str strlen options
        = .error UTF8PROC_ERROR_INVALIDOPTS := by
  have hd : utf8proc_decompose table lumpTbl str strlen options
      = .error UTF8PROC_ERROR_INVALIDOPTS := by
    unfold utf8proc_decompose
    rcases h with ⟨h1, h2, h3⟩ | ⟨h1, h2⟩
    · rw [if_neg (show ¬ (hasOpt options UTF8PROC_COMPOSE = true
            ∧ hasOpt options UTF8PROC_DECOMPOSE = true) from
          fun hh => by rw [h2] at hh; exact Bool.false_ne_true hh.1),
        if_pos (show hasOpt options UTF8PROC_STRIPMARK = true
            ∧ ¬ (hasOpt options UTF8PROC_COMPOSE = true
              ∨ hasOpt options UTF8PROC_DECOMPOSE = true) from
          ⟨h1, fun hh => hh.elim
            (fun a => by rw [h2] at a; exact Bool.false_ne_true a)
            (fun a => by rw [h3] at a; exact Bool.false_ne_true a)⟩)]
    · rw [if_pos ⟨h1, h2⟩]
  refine ⟨hd, ?_⟩
  unfold utf8proc_map
  rw [hd]
  rfl

/-- Claim C9 witness: with COMPOSE and DECOMPOSE both set, decompose fails
with InvalidOpts on the empty input. -/
theorem utf8proc_decompose_invalidopts_witness :
    utf8proc_decompose (fun _ => none) (fun _ => none) [] 0
      (UTF8PROC_COMPOSE ||| UTF8PROC_DECOMPOSE) = .error UTF8PROC_ERROR_INVALIDOPTS :=
  (utf8proc_decompose_invalidopts (fun _ => none) (fun _ => none) (fun _ _ => none)
    [] 0 (UTF8PROC_COMPOSE ||| UTF8PROC_DECOMPOSE)
    (Or.inr ⟨by decide, by decide⟩)).1
